import Mathlib

/-!
Verification of the `ls-option` filesystem-listing library (`src/option.rs`).

Shallow embedding choices:
* A filesystem path is a list of components (`List String`); Rust's
  `Path::file_name()` is the last component, and `read_dir` children have the
  parent's components followed by the entry name.  `canonicalize` is the
  identity on the already-clean component paths the traversal constructs.
* The filesystem is a finite tree `FsTree`; the root argument of `list` is
  `Option FsTree` (`none` models a non-existent path).
* Rust `usize` subtraction `self.level - 1` underflows when `level = 0`
  (a panic with the default debug profile), so the traversal returns
  `Option (List (List String))`, with `none` modelling the panic.
* `str::starts_with('.')` and `str::ends_with(suf)` are modelled on the
  character lists of the strings.
-/

/-- Configuration record, mirroring `struct ListOption` in `src/option.rs`. -/
structure ListOption where
  dir : Bool
  file : Bool
  hidden : Bool
  unhidden : Bool
  recursive : Bool
  level : Nat
  sufs : List String
deriving Repr, DecidableEq

/-- Mirrors `impl Default for ListOption`. -/
def ListOption.default : ListOption :=
  { dir := true, file := true, hidden := false, unhidden := true,
    recursive := false, level := 1, sufs := [] }

/-- Rust `s.starts_with('.')` on a name. -/
def startsWithDot (s : String) : Bool :=
  match s.toList with
  | [] => false
  | c :: _ => c == '.'

/-- Rust `s.ends_with(suf)` on a name. -/
def endsWithStr (s suf : String) : Bool :=
  List.isSuffixOf suf.toList s.toList

/-- Rust `Path::file_name()` of a component path (last component). -/
def baseName (p : List String) : String := p.getLastD ""

/-- Mirrors `ListOption::check_if_show_file`: the file filter, applied to the
base name of the path (type, suffix and visibility checks; no depth check). -/
def check_if_show_file (o : ListOption) (file_path : List String) : Bool :=
  let base_name := baseName file_path
  o.file
    && (o.sufs.isEmpty || o.sufs.any (fun suf => endsWithStr base_name suf))
    && (o.hidden && startsWithDot base_name
        || o.unhidden && !startsWithDot base_name)

/-- Mirrors `ListOption::check_if_list_dir`: the directory-descent filter on
the base name of the (canonicalized) path: depth-eligibility and visibility. -/
def check_if_list_dir (o : ListOption) (dir_path : List String) : Bool :=
  let base_name := baseName dir_path
  (decide (o.level > 0) || o.recursive)
    && (o.hidden && startsWithDot base_name
        || o.unhidden && !startsWithDot base_name)

/-- The child-level derivation `if self.recursive { self.level } else
{ self.level - 1 }`; the `usize` subtraction underflows (panics) when
`level = 0`, modelled by `none`. -/
def next_level (o : ListOption) : Option Nat :=
  if o.recursive then some o.level
  else if o.level = 0 then none
  else some (o.level - 1)

/-- A finite filesystem tree: a named file or a named directory with an
ordered list of children (the `read_dir` enumeration order). -/
inductive FsTree where
  | file : String → FsTree
  | dir : String → List FsTree → FsTree
deriving Repr

mutual

/-- Mirrors `ListOption::inner_list` on an existing path `p` whose tree is
`t`: a file is pushed when it passes the file filter; a directory's children
are walked only when `check_if_list_dir` passes. -/
def inner_list (o : ListOption) (p : List String) : FsTree → Option (List (List String))
  | .file _ => some (if o.file && check_if_show_file o p then [p] else [])
  | .dir _ cs => if check_if_list_dir o p then list_loop o p cs else some []

/-- The shared `read_dir` loop body of `ListOption::list` and
`ListOption::inner_list`: for each entry in order, a directory child first
forces the `level - 1` computation (possible panic), is pushed when
`self.dir`, and is descended into when the derived options pass
`check_if_list_dir`; a file child is pushed when it passes the file filter. -/
def list_loop (o : ListOption) (p : List String) : List FsTree → Option (List (List String))
  | [] => some []
  | .file n :: cs =>
      Option.bind (list_loop o p cs) fun rest =>
        some ((if check_if_show_file o (p ++ [n]) then [p ++ [n]] else []) ++ rest)
  | .dir n sub :: cs =>
      Option.bind (next_level o) fun nl =>
        let so : ListOption := { o with level := nl }
        let head := if o.dir then [p ++ [n]] else []
        Option.bind
          (if check_if_list_dir so (p ++ [n]) then
            inner_list so (p ++ [n]) (.dir n sub)
          else some []) fun subres =>
        Option.bind (list_loop o p cs) fun rest =>
          some (head ++ subres ++ rest)

end

/-- Mirrors the public entry `ListOption::list`: a missing root yields the
empty result, a file root is tested with the file filter, a directory root's
children are walked with no check on the root itself. -/
def ListOption.list (o : ListOption) (p : List String) (root : Option FsTree) :
    Option (List (List String)) :=
  match root with
  | none => some []
  | some (.file _) => some (if o.file && check_if_show_file o p then [p] else [])
  | some (.dir _ cs) => list_loop o p cs

mutual

/-- The (absolute path, is-directory) pairs of the entries reachable from a
node sitting at path `p`: the node itself for a file, the strict descendants
for a directory (a directory node's own path is never included, matching the
fact that `list`/`inner_list` never push the node they are called on). -/
def node_paths (p : List String) : FsTree → List (List String × Bool)
  | .file _ => [(p, false)]
  | .dir _ cs => children_paths p cs

/-- The (absolute path, is-directory) pairs of all descendants of a
directory at path `p` with children `cs`. -/
def children_paths (p : List String) : List FsTree → List (List String × Bool)
  | [] => []
  | .file n :: cs => (p ++ [n], false) :: children_paths p cs
  | .dir n sub :: cs =>
      (p ++ [n], true) :: (children_paths (p ++ [n]) sub ++ children_paths p cs)

end

/-- The (absolute path, is-directory) pairs a `list` call at root `p` can
draw from: nothing for a missing root, the root itself for a file root, the
descendants for a directory root. -/
def list_paths (p : List String) : Option FsTree → List (List String × Bool)
  | none => []
  | some (.file _) => [(p, false)]
  | some (.dir _ cs) => children_paths p cs

/-- Modelled from the spec: the four-part match predicate `wouldShow(options,
path)` of section 4.2 — conjunction of the type check (`is_dir` tells whether
the path names a directory), the visibility check, the depth-eligibility
check, and the suffix check — written from the spec's words to compare the
code against it. -/
def would_show (o : ListOption) (is_dir : Bool) (p : List String) : Bool :=
  let base_name := baseName p
  ((!is_dir) && o.file || is_dir && o.dir)
    && (o.hidden && startsWithDot base_name
        || o.unhidden && !startsWithDot base_name)
    && (o.recursive || decide (o.level > 0))
    && (o.sufs.isEmpty || o.sufs.any (fun suf => endsWithStr base_name suf))

/-- Visibility of a bare name under the options (the second conjunct of both
check functions). -/
def visible_name (o : ListOption) (base_name : String) : Bool :=
  o.hidden && startsWithDot base_name || o.unhidden && !startsWithDot base_name

/-- Modelled from the spec: with `recursive = true`, the walk over a
directory's children appends each file child passing the file filter, each
directory child when `dir` is set, and recurses exactly into the directory
children whose base name passes the visibility check. -/
def rec_walk (o : ListOption) (p : List String) : List FsTree → List (List String)
  | [] => []
  | .file n :: cs =>
      (if check_if_show_file o (p ++ [n]) then [p ++ [n]] else []) ++ rec_walk o p cs
  | .dir n sub :: cs =>
      (if o.dir then [p ++ [n]] else [])
        ++ (if visible_name o n then rec_walk o (p ++ [n]) sub else [])
        ++ rec_walk o p cs

/-- Bridge between `rec_walk` and `inner_list`: the recursive-mode result at
a single existing node (file filter for a file, the guarded child walk for a
directory). -/
def rec_tree (o : ListOption) (p : List String) : FsTree → List (List String)
  | .file _ => if o.file && check_if_show_file o p then [p] else []
  | .dir _ cs => if check_if_list_dir o p then rec_walk o p cs else []

/-- Modelled from the spec: the whole recursive-mode listing — empty for a
missing root, the file filter for a file root, `rec_walk` for a directory
root's children. -/
def rec_list_spec (o : ListOption) (p : List String) (root : Option FsTree) :
    List (List String) :=
  match root with
  | none => []
  | some (.file _) => if o.file && check_if_show_file o p then [p] else []
  | some (.dir _ cs) => rec_walk o p cs

/-- Mirrors the builder setter `ListOption::dir` (its result is both the
mutated receiver and the returned clone). -/
def ListOption.dir' (o : ListOption) (if_show : Bool) : ListOption :=
  { o with dir := if_show }

/-- Mirrors the builder setter `ListOption::file`. -/
def ListOption.file' (o : ListOption) (if_show : Bool) : ListOption :=
  { o with file := if_show }

/-- Mirrors the builder setter `ListOption::hidden`. -/
def ListOption.hidden' (o : ListOption) (if_show : Bool) : ListOption :=
  { o with hidden := if_show }

/-- Mirrors the builder setter `ListOption::unhidden`. -/
def ListOption.unhidden' (o : ListOption) (if_show : Bool) : ListOption :=
  { o with unhidden := if_show }

/-- Mirrors the builder setter `ListOption::level`. -/
def ListOption.level' (o : ListOption) (level : Nat) : ListOption :=
  { o with level := level }

/-- Mirrors the builder setter `ListOption::recursive`. -/
def ListOption.recursive' (o : ListOption) (if_choose : Bool) : ListOption :=
  { o with recursive := if_choose }

/-- Mirrors `ListOption::ext`: pushes `"." + ext` onto `sufs`. -/
def ListOption.ext' (o : ListOption) (e : String) : ListOption :=
  { o with sufs := o.sufs ++ ["." ++ e] }

/-- Mirrors `ListOption::exts`: replaces `sufs` with the dot-prefixed list. -/
def ListOption.exts' (o : ListOption) (es : List String) : ListOption :=
  { o with sufs := es.map (fun s => "." ++ s) }

/-- Mirrors `ListOption::suf`: pushes the literal string onto `sufs`. -/
def ListOption.suf' (o : ListOption) (s : String) : ListOption :=
  { o with sufs := o.sufs ++ [s] }

/-- Mirrors `ListOption::sufs`: replaces `sufs` with the literal list. -/
def ListOption.sufs' (o : ListOption) (ss : List String) : ListOption :=
  { o with sufs := ss }

/-! Helper lemmas about the traversal. -/

/-- The base name of a child path is the entry name. -/
lemma baseName_append (p : List String) (n : String) : baseName (p ++ [n]) = n := by
  simp [baseName]

/-- Every path appended by the child loop names a file descendant and
passes the file filter of the options in force (which ignores `level`, hence
equals the root options' filter), or names a directory descendant and was
appended under the `dir` flag alone. -/
lemma loop_mem_kind :
    ∀ (o : ListOption) (p : List String) (cs : List FsTree) (res : List (List String)),
      list_loop o p cs = some res →
      ∀ s ∈ res,
        ((s, false) ∈ children_paths p cs ∧ check_if_show_file o s = true)
        ∨ ((s, true) ∈ children_paths p cs ∧ o.dir = true) := by
  intro o0 p0 cs0 res0 h0
  refine list_loop.induct
    (fun o p t => ∀ res, inner_list o p t = some res →
      ∀ s ∈ res,
        ((s, false) ∈ node_paths p t ∧ check_if_show_file o s = true)
        ∨ ((s, true) ∈ node_paths p t ∧ o.dir = true))
    (fun o p cs => ∀ res, list_loop o p cs = some res →
      ∀ s ∈ res,
        ((s, false) ∈ children_paths p cs ∧ check_if_show_file o s = true)
        ∨ ((s, true) ∈ children_paths p cs ∧ o.dir = true))
    ?_ ?_ ?_ ?_ ?_ ?_ o0 p0 cs0 res0 h0
  · -- inner_list at a file node
    intro o p n res h s hs
    simp only [inner_list, Option.some.injEq] at h
    subst h
    by_cases hc : (o.file && check_if_show_file o p) = true
    · rw [if_pos hc] at hs
      rcases List.mem_singleton.mp hs with rfl
      simp only [Bool.and_eq_true] at hc
      exact Or.inl ⟨by simp [node_paths], hc.2⟩
    · rw [if_neg hc] at hs
      simp at hs
  · -- inner_list at a directory node, descent check true
    intro o p n cs hcheck ih res h s hs
    simp only [inner_list, if_pos hcheck] at h
    simp only [node_paths]
    exact ih res h s hs
  · -- inner_list at a directory node, descent check false
    intro o p n cs hcheck res h s hs
    simp only [inner_list, if_neg hcheck, Option.some.injEq] at h
    subst h
    simp at hs
  · -- loop, no entries
    intro o p res h s hs
    simp only [list_loop, Option.some.injEq] at h
    subst h
    simp at hs
  · -- loop, file entry
    intro o p n cs ih res h s hs
    simp only [list_loop, Option.bind_eq_some, Option.some.injEq] at h
    obtain ⟨rest, hrest, hres⟩ := h
    subst hres
    simp only [children_paths]
    rcases List.mem_append.mp hs with hl | hr
    · by_cases hc : check_if_show_file o (p ++ [n]) = true
      · rw [if_pos hc] at hl
        rcases List.mem_singleton.mp hl with rfl
        exact Or.inl ⟨List.mem_cons_self _ _, hc⟩
      · rw [if_neg hc] at hl
        simp at hl
    · rcases ih rest hrest s hr with ⟨hm, hck⟩ | ⟨hm, hd⟩
      · exact Or.inl ⟨List.mem_cons_of_mem _ hm, hck⟩
      · exact Or.inr ⟨List.mem_cons_of_mem _ hm, hd⟩
  · -- loop, directory entry
    intro o p n sub cs ihInner ih res h s hs
    simp only [list_loop, Option.bind_eq_some, Option.some.injEq] at h
    obtain ⟨nl, hnl, subres, hsub, rest, hrest, hres⟩ := h
    subst hres
    simp only [children_paths]
    rcases List.mem_append.mp hs with hl | hr
    · rcases List.mem_append.mp hl with hll | hlr
      · by_cases hc : o.dir = true
        · rw [if_pos hc] at hll
          rcases List.mem_singleton.mp hll with rfl
          exact Or.inr ⟨List.mem_cons_self _ _, hc⟩
        · rw [if_neg hc] at hll
          simp at hll
      · by_cases hc :
            check_if_list_dir { o with level := nl } (p ++ [n]) = true
        · rw [if_pos hc] at hsub
          rcases ihInner nl subres hsub s hlr with ⟨hm, hck⟩ | ⟨hm, hd⟩
          · simp only [node_paths] at hm
            exact Or.inl ⟨List.mem_cons_of_mem _ (List.mem_append_left _ hm), hck⟩
          · simp only [node_paths] at hm
            exact Or.inr ⟨List.mem_cons_of_mem _ (List.mem_append_left _ hm), hd⟩
        · rw [if_neg hc] at hsub
          rcases Option.some.inj hsub with rfl
          simp at hlr
    · rcases ih rest hrest s hr with ⟨hm, hck⟩ | ⟨hm, hd⟩
      · exact Or.inl ⟨List.mem_cons_of_mem _ (List.mem_append_right _ hm), hck⟩
      · exact Or.inr ⟨List.mem_cons_of_mem _ (List.mem_append_right _ hm), hd⟩

/-- Every path appended by the child loop is strictly longer than the
directory path whose children are being walked. -/
lemma loop_mem_length :
    ∀ (o : ListOption) (p : List String) (cs : List FsTree) (res : List (List String)),
      list_loop o p cs = some res → ∀ s ∈ res, p.length < s.length := by
  intro o0 p0 cs0 res0 h0
  refine list_loop.induct
    (fun o p t => ∀ res, inner_list o p t = some res →
      ∀ s ∈ res, p.length ≤ s.length)
    (fun o p cs => ∀ res, list_loop o p cs = some res →
      ∀ s ∈ res, p.length < s.length)
    ?_ ?_ ?_ ?_ ?_ ?_ o0 p0 cs0 res0 h0
  · intro o p n res h s hs
    simp only [inner_list, Option.some.injEq] at h
    subst h
    by_cases hc : (o.file && check_if_show_file o p) = true
    · rw [if_pos hc] at hs
      rcases List.mem_singleton.mp hs with rfl
      exact le_refl _
    · rw [if_neg hc] at hs
      simp at hs
  · intro o p n cs hcheck ih res h s hs
    simp only [inner_list, if_pos hcheck] at h
    exact le_of_lt (ih res h s hs)
  · intro o p n cs hcheck res h s hs
    simp only [inner_list, if_neg hcheck, Option.some.injEq] at h
    subst h
    simp at hs
  · intro o p res h s hs
    simp only [list_loop, Option.some.injEq] at h
    subst h
    simp at hs
  · intro o p n cs ih res h s hs
    simp only [list_loop, Option.bind_eq_some, Option.some.injEq] at h
    obtain ⟨rest, hrest, hres⟩ := h
    subst hres
    rcases List.mem_append.mp hs with hl | hr
    · by_cases hc : check_if_show_file o (p ++ [n]) = true
      · rw [if_pos hc] at hl
        rcases List.mem_singleton.mp hl with rfl
        simp
      · rw [if_neg hc] at hl
        simp at hl
    · exact ih rest hrest s hr
  · intro o p n sub cs ihInner ih res h s hs
    simp only [list_loop, Option.bind_eq_some, Option.some.injEq] at h
    obtain ⟨nl, hnl, subres, hsub, rest, hrest, hres⟩ := h
    subst hres
    rcases List.mem_append.mp hs with hl | hr
    · rcases List.mem_append.mp hl with hll | hlr
      · by_cases hc : o.dir = true
        · rw [if_pos hc] at hll
          rcases List.mem_singleton.mp hll with rfl
          simp
        · rw [if_neg hc] at hll
          simp at hll
      · by_cases hc :
            check_if_list_dir { o with level := nl } (p ++ [n]) = true
        · rw [if_pos hc] at hsub
          have hle := ihInner nl subres hsub s hlr
          have : p.length < (p ++ [n]).length := by simp
          omega
        · rw [if_neg hc] at hsub
          rcases Option.some.inj hsub with rfl
          simp at hlr
    · exact ih rest hrest s hr

/-- Depth bound for the non-recursive walk: every path appended below `p` is
at most `max level 1` components longer than `p` (at `level = 0` direct
children are still pushed, hence the floor of 1). -/
lemma loop_depth_bound :
    ∀ (o : ListOption) (p : List String) (cs : List FsTree) (res : List (List String)),
      o.recursive = false → list_loop o p cs = some res →
      ∀ s ∈ res, s.length ≤ p.length + max o.level 1 := by
  intro o0 p0 cs0 res0 hrec0 h0
  refine list_loop.induct
    (fun o p t => o.recursive = false → ∀ res, inner_list o p t = some res →
      ∀ s ∈ res, s.length ≤ p.length + max o.level 1)
    (fun o p cs => o.recursive = false → ∀ res, list_loop o p cs = some res →
      ∀ s ∈ res, s.length ≤ p.length + max o.level 1)
    ?_ ?_ ?_ ?_ ?_ ?_ o0 p0 cs0 hrec0 res0 h0
  · intro o p n hrec res h s hs
    simp only [inner_list, Option.some.injEq] at h
    subst h
    by_cases hc : (o.file && check_if_show_file o p) = true
    · rw [if_pos hc] at hs
      rcases List.mem_singleton.mp hs with rfl
      omega
    · rw [if_neg hc] at hs
      simp at hs
  · intro o p n cs hcheck ih hrec res h s hs
    simp only [inner_list, if_pos hcheck] at h
    exact ih hrec res h s hs
  · intro o p n cs hcheck hrec res h s hs
    simp only [inner_list, if_neg hcheck, Option.some.injEq] at h
    subst h
    simp at hs
  · intro o p hrec res h s hs
    simp only [list_loop, Option.some.injEq] at h
    subst h
    simp at hs
  · intro o p n cs ih hrec res h s hs
    simp only [list_loop, Option.bind_eq_some, Option.some.injEq] at h
    obtain ⟨rest, hrest, hres⟩ := h
    subst hres
    rcases List.mem_append.mp hs with hl | hr
    · by_cases hc : check_if_show_file o (p ++ [n]) = true
      · rw [if_pos hc] at hl
        rcases List.mem_singleton.mp hl with rfl
        simp
      · rw [if_neg hc] at hl
        simp at hl
    · exact ih hrec rest hrest s hr
  · intro o p n sub cs ihInner ih hrec res h s hs
    simp only [list_loop, Option.bind_eq_some, Option.some.injEq] at h
    obtain ⟨nl, hnl, subres, hsub, rest, hrest, hres⟩ := h
    subst hres
    simp only [next_level, hrec] at hnl
    rw [if_neg (by simp)] at hnl
    by_cases hl0 : o.level = 0
    · rw [if_pos hl0] at hnl
      simp at hnl
    · rw [if_neg hl0] at hnl
      rcases Option.some.inj hnl with rfl
      rcases List.mem_append.mp hs with hl | hr
      · rcases List.mem_append.mp hl with hll | hlr
        · by_cases hc : o.dir = true
          · rw [if_pos hc] at hll
            rcases List.mem_singleton.mp hll with rfl
            simp
          · rw [if_neg hc] at hll
            simp at hll
        · by_cases hc :
              check_if_list_dir { o with level := o.level - 1 } (p ++ [n]) = true
          · rw [if_pos hc] at hsub
            have hpos : 0 < o.level - 1 := by
              simp only [check_if_list_dir, Bool.and_eq_true, Bool.or_eq_true,
                decide_eq_true_eq] at hc
              rcases hc.1 with hgt | hr2
              · exact hgt
              · rw [hrec] at hr2
                cases hr2
            have hle := ihInner (o.level - 1) hrec subres hsub s hlr
            simp only [List.length_append, List.length_cons, List.length_nil] at hle ⊢
            omega
          · rw [if_neg hc] at hsub
            rcases Option.some.inj hsub with rfl
            simp at hlr
      · exact ih hrec rest hrest s hr

/-- With both visibility flags off and the `dir` flag off, the child loop
contributes nothing (assuming the level-0 underflow is not reached). -/
lemma loop_no_visibility :
    ∀ (o : ListOption) (p : List String) (cs : List FsTree),
      o.hidden = false → o.unhidden = false → o.dir = false →
      (o.recursive = true ∨ 1 ≤ o.level) →
      list_loop o p cs = some [] := by
  intro o p cs hh hu hd hlv
  induction cs with
  | nil => rfl
  | cons c cs ih =>
    have hnl : ∃ nl, next_level o = some nl := by
      by_cases hr : o.recursive = true
      · exact ⟨o.level, by simp [next_level, hr]⟩
      · have hl1 : 1 ≤ o.level := by
          rcases hlv with h1 | h1
          · exact absurd h1 hr
          · exact h1
        have hl0 : ¬ o.level = 0 := by omega
        exact ⟨o.level - 1, by simp [next_level, hr, hl0]⟩
    cases c with
    | file n =>
        have hshow : check_if_show_file o (p ++ [n]) = false := by
          simp [check_if_show_file, hh, hu]
        simp [list_loop, ih, hshow]
    | dir n sub =>
        obtain ⟨nl, hnl⟩ := hnl
        simp [list_loop, hnl, ih, hd, check_if_list_dir, hh, hu]

/-- In recursive mode the directory-descent check is the visibility check on
the entry name. -/
lemma check_list_dir_recursive (o : ListOption) (p : List String) (n : String)
    (hrec : o.recursive = true) :
    check_if_list_dir o (p ++ [n]) = visible_name o n := by
  simp [check_if_list_dir, visible_name, hrec, baseName_append, baseName]

/-- In recursive mode the child loop computes exactly the spec-level
recursive walk `rec_walk`. -/
lemma loop_recursive_spec :
    ∀ (o : ListOption) (p : List String) (cs : List FsTree),
      o.recursive = true → list_loop o p cs = some (rec_walk o p cs) := by
  intro o0 p0 cs0 h0
  refine list_loop.induct
    (fun o p t => o.recursive = true →
      inner_list o p t = some (rec_tree o p t))
    (fun o p cs => o.recursive = true →
      list_loop o p cs = some (rec_walk o p cs))
    ?_ ?_ ?_ ?_ ?_ ?_ o0 p0 cs0 h0
  · intro o p n hrec
    simp [inner_list, rec_tree]
  · intro o p n cs hcheck ih hrec
    simp only [inner_list, rec_tree, if_pos hcheck]
    exact ih hrec
  · intro o p n cs hcheck hrec
    simp only [inner_list, rec_tree, if_neg hcheck]
  · intro o p hrec
    simp [list_loop, rec_walk]
  · intro o p n cs ih hrec
    simp only [list_loop, rec_walk, ih hrec, Option.bind]
  · intro o p n sub cs ihInner ih hrec
    have hso : ({ o with level := o.level } : ListOption) = o := rfl
    have hnl : next_level o = some o.level := by simp [next_level, hrec]
    have hinner := ihInner o.level hrec
    rw [hso] at hinner
    have htree : rec_tree o (p ++ [n]) (FsTree.dir n sub)
        = if visible_name o n then rec_walk o (p ++ [n]) sub else [] := by
      simp only [rec_tree, check_list_dir_recursive o p n hrec]
    simp only [list_loop, rec_walk, hnl, Option.bind, hso,
      check_list_dir_recursive o p n hrec, ih hrec]
    by_cases hv : visible_name o n = true
    · simp only [if_pos hv, hinner, htree, Option.bind, if_pos hv]
    · simp only [if_neg hv, Option.bind]

/-! Claim theorems. -/

/-- C1 counterexample: with the default options (no hidden entries) the
hidden directory child `root/.hid` is appended by `list` although the spec's
four-part match predicate rejects it — a directory child is appended under
the type check alone. -/
theorem c1_counterexample :
    ListOption.list ListOption.default ["root"]
        (some (.dir "root" [.dir ".hid" []])) = some [["root", ".hid"]]
    ∧ would_show ListOption.default true ["root", ".hid"] = false := by
  decide

/-- C1 (amended): every path appended to the result of `list` either names a
file of the tree and passes the file filter `check_if_show_file` (type,
suffix and visibility checks — with no depth-eligibility check) under the
options in force (equivalently the root options, since the filter ignores
`level`), or names a directory child of the tree and was appended under the
type check `dir` alone, with no visibility, depth-eligibility or suffix
check applied to it. -/
theorem c1_appended_paths (o : ListOption) (p : List String) (root : Option FsTree)
    (res : List (List String)) (s : List String)
    (h : ListOption.list o p root = some res) (hs : s ∈ res) :
    ((s, false) ∈ list_paths p root ∧ check_if_show_file o s = true)
    ∨ ((s, true) ∈ list_paths p root ∧ o.dir = true) := by
  cases root with
  | none =>
      cases Option.some.inj h
      simp at hs
  | some t =>
      cases t with
      | file n =>
          simp only [ListOption.list, Option.some.injEq] at h
          subst h
          by_cases hc : (o.file && check_if_show_file o p) = true
          · rw [if_pos hc] at hs
            rcases List.mem_singleton.mp hs with rfl
            simp only [Bool.and_eq_true] at hc
            exact Or.inl ⟨by simp [list_paths], hc.2⟩
          · rw [if_neg hc] at hs
            simp at hs
      | dir n cs =>
          simp only [list_paths]
          exact loop_mem_kind o p cs res h s hs

/-- C1 witness: the theorem applied to a concrete listing — the returned
path `root/a` names a file descendant and passes the file filter, or names a
directory descendant pushed under the `dir` flag. -/
theorem c1_witness :
    ((["root", "a"], false) ∈ list_paths ["root"] (some (.dir "root" [.file "a"]))
      ∧ check_if_show_file ListOption.default ["root", "a"] = true)
    ∨ ((["root", "a"], true) ∈ list_paths ["root"] (some (.dir "root" [.file "a"]))
      ∧ ListOption.default.dir = true) :=
  c1_appended_paths ListOption.default ["root"] (some (.dir "root" [.file "a"]))
    [["root", "a"]] ["root", "a"] (by decide) (by decide)

/-- C2: the child-depth derivation is not total and does not saturate at 0 —
at `level = 0` with `recursive = false` the `usize` subtraction `level - 1`
underflows (a panic, modelled as `none`), and a `list` call on a directory
containing a subdirectory aborts; with `level ≥ 1` it decrements and in
recursive mode the level is left unchanged, as claimed. -/
theorem c2_underflow :
    next_level { ListOption.default with level := 0 } = none
    ∧ ListOption.list { ListOption.default with level := 0 } ["root"]
        (some (.dir "root" [.dir "sub" []])) = none
    ∧ next_level { ListOption.default with level := 2 } = some 1
    ∧ next_level { ListOption.default with level := 0, recursive := true } = some 0 := by
  decide

/-- C3 counterexample: with `recursive = false` and `depth = 0` the file
child `root/a` is still appended — one level below the root, more than the
claimed bound of 0, and distinct from the root itself. -/
theorem c3_counterexample :
    ListOption.list { ListOption.default with level := 0 } ["root"]
        (some (.dir "root" [.file "a"])) = some [["root", "a"]]
    ∧ (["root", "a"] : List String) ≠ ["root"]
    ∧ (["root", "a"] : List String).length > (["root"] : List String).length + 0 := by
  decide

/-- C3 (amended): with `recursive = false` every returned path is at most
`max depth 1` directory levels below the root — the bound `depth` holds for
`depth ≥ 1`, while at `depth = 0` direct children are still evaluated and
matching file children are returned (and the call aborts when a directory
child forces the `level - 1` underflow), so the returned depth can still
be 1. -/
theorem c3_depth_bound (o : ListOption) (p : List String) (root : Option FsTree)
    (res : List (List String)) (s : List String)
    (hrec : o.recursive = false) (h : ListOption.list o p root = some res)
    (hs : s ∈ res) :
    s.length ≤ p.length + max o.level 1 := by
  cases root with
  | none =>
      cases Option.some.inj h
      simp at hs
  | some t =>
      cases t with
      | file n =>
          simp only [ListOption.list, Option.some.injEq] at h
          subst h
          by_cases hc : (o.file && check_if_show_file o p) = true
          · rw [if_pos hc] at hs
            rcases List.mem_singleton.mp hs with rfl
            omega
          · rw [if_neg hc] at hs
            simp at hs
      | dir n cs => exact loop_depth_bound o p cs res hrec h s hs

/-- C3 witness: the bound applied to a concrete non-recursive listing. -/
theorem c3_witness :
    (["root", "a"] : List String).length
      ≤ (["root"] : List String).length + max ListOption.default.level 1 :=
  c3_depth_bound ListOption.default ["root"] (some (.dir "root" [.file "a"]))
    [["root", "a"]] ["root", "a"] rfl (by decide) (by decide)

/-- C4 counterexample: a directory root that satisfies the spec's four-part
match predicate is nevertheless absent from the result — `list` never tests
or appends a directory root. -/
theorem c4_counterexample :
    ListOption.list ListOption.default ["root"] (some (.dir "root" [])) = some []
    ∧ would_show ListOption.default true ["root"] = true := by
  decide

/-- C4 (amended): a directory root never appears in the result of `list`
(it is not tested against any predicate), while a file root is tested with
the file filter — which has no depth-eligibility part, so a matching file
root is returned even at `level = 0` — and is then the whole result. -/
theorem c4_root_handling :
    (∀ (o : ListOption) (p : List String) (n : String) (cs : List FsTree)
        (res : List (List String)),
        ListOption.list o p (some (.dir n cs)) = some res → p ∉ res)
    ∧ (∀ (o : ListOption) (p : List String) (n : String),
        o.file = true → check_if_show_file o p = true →
        ListOption.list o p (some (.file n)) = some [p]) := by
  constructor
  · intro o p n cs res h hp
    have := loop_mem_length o p cs res h p hp
    omega
  · intro o p n hf hc
    simp [ListOption.list, hf, hc]

/-- C4 witness: both conjuncts applied at concrete inputs; the file root is
returned even with `level = 0`. -/
theorem c4_witness :
    (["root"] : List String) ∉ ([] : List (List String))
    ∧ ListOption.list { ListOption.default with level := 0 } ["f.txt"]
        (some (.file "f.txt")) = some [["f.txt"]] :=
  ⟨c4_root_handling.1 ListOption.default ["root"] "root" [] [] (by decide),
   c4_root_handling.2 { ListOption.default with level := 0 } ["f.txt"] "f.txt"
     rfl (by decide)⟩

/-- C5 counterexample: with both visibility flags false but `dir = true`,
the directory child `root/sub` is still returned — the result is not empty
for every tree. -/
theorem c5_counterexample :
    ListOption.list ⟨true, true, false, false, false, 1, []⟩ ["root"]
        (some (.dir "root" [.dir "sub" []])) = some [["root", "sub"]]
    ∧ ([["root", "sub"]] : List (List String)) ≠ [] := by
  decide

/-- C5 (amended): with `hidden = unhidden = false` no file is ever returned,
and if additionally `dir = false` (directory children are otherwise appended
under the type check alone) and the level-0 underflow is not reached
(`recursive` or `level ≥ 1`), `list` returns the empty sequence for every
root and tree. -/
theorem c5_no_visibility (o : ListOption) (p : List String) (root : Option FsTree)
    (hh : o.hidden = false) (hu : o.unhidden = false) (hd : o.dir = false)
    (hlv : o.recursive = true ∨ 1 ≤ o.level) :
    ListOption.list o p root = some [] := by
  cases root with
  | none => rfl
  | some t =>
      cases t with
      | file n =>
          have hshow : check_if_show_file o p = false := by
            simp [check_if_show_file, hh, hu]
          simp [ListOption.list, hshow]
      | dir n cs => exact loop_no_visibility o p cs hh hu hd hlv

/-- C5 witness: the theorem applied to a concrete tree with a nested file. -/
theorem c5_witness :
    ListOption.list ⟨false, true, false, false, false, 1, []⟩ ["root"]
        (some (.dir "root" [.dir "sub" [.file "x"]])) = some [] :=
  c5_no_visibility ⟨false, true, false, false, false, 1, []⟩ ["root"]
    (some (.dir "root" [.dir "sub" [.file "x"]])) rfl rfl rfl
    (Or.inr (by decide))

/-- C6 counterexample: in recursive mode the walk does not descend into the
hidden directory `.git` (its name fails the visibility check), so the
matching unhidden descendant `root/.git/a` is not returned even though it
passes the file filter. -/
theorem c6_counterexample :
    ListOption.list ⟨false, true, false, true, true, 1, []⟩ ["root"]
        (some (.dir "root" [.dir ".git" [.file "a"]])) = some []
    ∧ check_if_show_file ⟨false, true, false, true, true, 1, []⟩
        ["root", ".git", "a"] = true := by
  decide

/-- C6 (amended): with `recursive = true`, `list` returns exactly the
spec-level recursive walk `rec_list_spec` — matching file children and
(when `dir` is set) directory children at every level, recursing exactly
into the directory children whose base name passes the visibility check,
independently of the numeric value of `depth`; descendants below a
visibility-failing directory are omitted. -/
theorem c6_recursive_lists_spec (o : ListOption) (p : List String)
    (root : Option FsTree) (hrec : o.recursive = true) :
    ListOption.list o p root = some (rec_list_spec o p root) := by
  cases root with
  | none => rfl
  | some t =>
      cases t with
      | file n => rfl
      | dir n cs => exact loop_recursive_spec o p cs hrec

/-- C6 witness: the theorem applied to a concrete recursive listing,
together with the concrete value of the spec walk. -/
theorem c6_witness :
    ListOption.list ⟨true, true, false, true, true, 1, []⟩ ["root"]
        (some (.dir "root" [.dir "sub" [.file "b"]]))
      = some (rec_list_spec ⟨true, true, false, true, true, 1, []⟩ ["root"]
          (some (.dir "root" [.dir "sub" [.file "b"]])))
    ∧ rec_list_spec ⟨true, true, false, true, true, 1, []⟩ ["root"]
        (some (.dir "root" [.dir "sub" [.file "b"]]))
      = [["root", "sub"], ["root", "sub", "b"]] :=
  ⟨c6_recursive_lists_spec ⟨true, true, false, true, true, 1, []⟩ ["root"]
      (some (.dir "root" [.dir "sub" [.file "b"]])) rfl,
   by simp [rec_list_spec, rec_walk, visible_name, check_if_show_file,
     baseName, startsWithDot, endsWithStr]⟩

/-- C7: calling `list` on a path that does not exist returns the empty
sequence and never signals an error, for every configuration. -/
theorem c7_missing_root (o : ListOption) (p : List String) :
    ListOption.list o p none = some [] := rfl

/-- C8: suffix-setter algebra — the replace-style setters `exts` and `sufs`
called twice leave exactly the second list active (`exts` dot-prefixing its
entries, `sufs` storing them literally), while the append-style setters
`ext` and `suf` called twice accumulate both entries. -/
theorem c8_suffix_algebra (o : ListOption) (l1 l2 : List String) (a b : String) :
    ((o.exts' l1).exts' l2).sufs = l2.map (fun s => "." ++ s)
    ∧ ((o.sufs' l1).sufs' l2).sufs = l2
    ∧ ((o.ext' a).ext' b).sufs = o.sufs ++ ["." ++ a, "." ++ b]
    ∧ ((o.suf' a).suf' b).sufs = o.sufs ++ [a, b] := by
  refine ⟨rfl, rfl, ?_, ?_⟩ <;> simp [ListOption.ext', ListOption.suf']

/-- C9: the file filter and the directory filter depend only on the final
path component — paths with equal base names are judged identically (so
hidden ancestors are irrelevant) — and the file filter holds exactly when
the type flag is set, some configured suffix (if any) ends the base name,
and the base name's leading dot agrees with the visibility flags. -/
theorem c9_base_name_only (o : ListOption) (p q : List String)
    (h : baseName p = baseName q) :
    (check_if_show_file o p = check_if_show_file o q
      ∧ check_if_list_dir o p = check_if_list_dir o q)
    ∧ (check_if_show_file o p = true ↔
        o.file = true
        ∧ (o.sufs = [] ∨ ∃ suf ∈ o.sufs, endsWithStr (baseName p) suf = true)
        ∧ ((o.hidden = true ∧ startsWithDot (baseName p) = true)
            ∨ (o.unhidden = true ∧ startsWithDot (baseName p) = false))) := by
  constructor
  · constructor
    · simp [check_if_show_file, h]
    · simp [check_if_list_dir, h]
  · simp only [check_if_show_file, Bool.and_eq_true, Bool.or_eq_true,
      List.isEmpty_iff, List.any_eq_true, Bool.not_eq_true']
    tauto

/-- C9 witness: a hidden ancestor does not hide the entry `a.rs`, and the
suffix check sees only the base name. -/
theorem c9_witness :
    (check_if_show_file ⟨true, true, false, true, false, 1, [".rs"]⟩
        [".hid", "a.rs"]
      = check_if_show_file ⟨true, true, false, true, false, 1, [".rs"]⟩ ["a.rs"]
      ∧ check_if_list_dir ⟨true, true, false, true, false, 1, [".rs"]⟩
          [".hid", "a.rs"]
        = check_if_list_dir ⟨true, true, false, true, false, 1, [".rs"]⟩ ["a.rs"])
    ∧ (check_if_show_file ⟨true, true, false, true, false, 1, [".rs"]⟩
          [".hid", "a.rs"] = true ↔
        (⟨true, true, false, true, false, 1, [".rs"]⟩ : ListOption).file = true
        ∧ ((⟨true, true, false, true, false, 1, [".rs"]⟩ : ListOption).sufs = []
            ∨ ∃ suf ∈ (⟨true, true, false, true, false, 1, [".rs"]⟩ : ListOption).sufs,
                endsWithStr (baseName [".hid", "a.rs"]) suf = true)
        ∧ (((⟨true, true, false, true, false, 1, [".rs"]⟩ : ListOption).hidden = true
              ∧ startsWithDot (baseName [".hid", "a.rs"]) = true)
            ∨ ((⟨true, true, false, true, false, 1, [".rs"]⟩ : ListOption).unhidden = true
              ∧ startsWithDot (baseName [".hid", "a.rs"]) = false))) :=
  c9_base_name_only ⟨true, true, false, true, false, 1, [".rs"]⟩
    [".hid", "a.rs"] ["a.rs"] (by decide)

/-- C10: every builder setter produces (as both the mutated receiver and the
returned copy) the record that differs from the input in exactly its own
field — `ext`/`suf` only extend `sufs`, `exts`/`sufs` only replace it, and
every other field is left unchanged. -/
theorem c10_setter_frames (o : ListOption) (b : Bool) (lv : Nat) (s : String)
    (l : List String) :
    o.dir' b = ⟨b, o.file, o.hidden, o.unhidden, o.recursive, o.level, o.sufs⟩
    ∧ o.file' b = ⟨o.dir, b, o.hidden, o.unhidden, o.recursive, o.level, o.sufs⟩
    ∧ o.hidden' b = ⟨o.dir, o.file, b, o.unhidden, o.recursive, o.level, o.sufs⟩
    ∧ o.unhidden' b = ⟨o.dir, o.file, o.hidden, b, o.recursive, o.level, o.sufs⟩
    ∧ o.recursive' b = ⟨o.dir, o.file, o.hidden, o.unhidden, b, o.level, o.sufs⟩
    ∧ o.level' lv = ⟨o.dir, o.file, o.hidden, o.unhidden, o.recursive, lv, o.sufs⟩
    ∧ o.ext' s = ⟨o.dir, o.file, o.hidden, o.unhidden, o.recursive, o.level,
        o.sufs ++ ["." ++ s]⟩
    ∧ o.suf' s = ⟨o.dir, o.file, o.hidden, o.unhidden, o.recursive, o.level,
        o.sufs ++ [s]⟩
    ∧ o.exts' l = ⟨o.dir, o.file, o.hidden, o.unhidden, o.recursive, o.level,
        l.map (fun v => "." ++ v)⟩
    ∧ o.sufs' l = ⟨o.dir, o.file, o.hidden, o.unhidden, o.recursive, o.level, l⟩ :=
  ⟨rfl, rfl, rfl, rfl, rfl, rfl, rfl, rfl, rfl, rfl⟩
